import Mathlib

/-!
Verification development for the MarketScout screening and reporting pipeline.

The definitions below are shallow embeddings of the Python sources:
  * `src/screener/screener.py` — return calculator, per-asset screeners,
    orchestrator (`run_screener`);
  * `src/run_screener.py` — message chunking (`send_telegram_message`),
    formatter ordering (`format_stock_message`), and the `main` entry point.

Prices and volumes are embedded as rationals (pandas floats in the source);
Python `None` becomes `Option`.
-/

namespace MarketScout

/-- One row of a fetched price history: close price and traded volume.
Mirrors one row of the pandas DataFrame returned by `fetch_stock_data`
(columns `Close` and `Volume`). -/
structure Bar where
  close : ℚ
  volume : ℚ
deriving DecidableEq

instance : Inhabited Bar := ⟨⟨0, 0⟩⟩

/-- A time-ordered price series (the DataFrame, oldest row first). -/
abbrev PriceSeries := List Bar

/-- The latest close, `data["Close"].iloc[-1]`. -/
def currentClose (data : PriceSeries) : ℚ :=
  ((data.getD (data.length - 1) default).close)

/-- The latest volume, `data["Volume"].iloc[-1]`. -/
def currentVolume (data : PriceSeries) : ℚ :=
  ((data.getD (data.length - 1) default).volume)

/-- The close `n` positions before the latest one,
`data["Close"].iloc[-(n + 1)]` (meaningful when `n + 1 ≤ data.length`). -/
def refClose (data : PriceSeries) (n : Nat) : ℚ :=
  ((data.getD (data.length - (n + 1)) default).close)

/-- Embedding of `calculate_percent_change(data, days)`
(src/screener/screener.py, lines 136-148): `None` if the series has fewer
than `days + 1` rows or the reference close is zero, else the percentage
change between the latest close and the close `days` rows earlier. -/
def calculate_percent_change (data : PriceSeries) (days : Nat) : Option ℚ :=
  if data.length < days + 1 then none
  else
    let current_price := currentClose data
    let past_price := refClose data days
    if past_price = 0 then none
    else some ((current_price - past_price) / past_price * 100)

/-- Round-half-to-even to an integer (Python `round` tie behaviour on exact
halves; float representation effects are outside this model's scope). -/
def roundHalfEven (q : ℚ) : ℤ :=
  let f := ⌊q⌋
  let r := q - f
  if r < 1 / 2 then f
  else if 1 / 2 < r then f + 1
  else if f % 2 = 0 then f else f + 1

/-- Embedding of Python `round(q, places)` on rationals. -/
def roundTo (places : Nat) (q : ℚ) : ℚ :=
  (roundHalfEven (q * 10 ^ places) : ℚ) / 10 ^ places

/-- Embedding of Python `int(q)`: truncation toward zero. -/
def intTrunc (q : ℚ) : ℤ :=
  if 0 ≤ q then ⌊q⌋ else ⌈q⌉

/-- The per-asset-class stock threshold record (`config["thresholds"]`).
Keys read with `[]` in the source are mandatory fields; keys read with
`.get(key, default)` are `Option`s, the default being applied at use site. -/
structure StockThresholds where
  one_day_pct_abs : ℚ
  one_week_pct_abs : ℚ
  one_month_pct_abs : ℚ
  min_dollar_volume : Option ℚ
  min_price : Option ℚ
deriving DecidableEq

/-- Instrument metadata from `yf.Ticker(symbol).info`; `none` at the call
site models a metadata-fetch failure (the `except` path). -/
structure StockInfo where
  longName : Option String
  shortName : Option String
  sector : Option String
deriving DecidableEq

/-- Company display name chosen by `screen_stock`: `longName`, else
`shortName`, else the symbol. -/
def companyNameOf (symbol : String) (info : Option StockInfo) : String :=
  match info with
  | none => symbol
  | some i =>
    match i.longName with
    | some n => n
    | none =>
      match i.shortName with
      | some n => n
      | none => symbol

/-- Sector chosen by `screen_stock`: `info["sector"].strip() or "Other"`,
falling back to `"Other"` when the field is missing, empty, or the
metadata fetch failed. -/
def sectorOf (info : Option StockInfo) : String :=
  match info with
  | none => "Other"
  | some i =>
    match i.sector with
    | none => "Other"
    | some s => if s.trim = "" then "Other" else s.trim

/-- The screening result record (the dict built by `screen_stock` and the
other per-asset screeners).  Keys that some producers omit and that the
formatter reads back with `.get` are `Option`s. -/
structure StockResult where
  symbol : String
  company_name : Option String
  sector : Option String
  asset_class : Option String
  price : ℚ
  volume : ℤ
  one_day_pct : ℚ
  one_week_pct : ℚ
  one_month_pct : Option ℚ
  one_6m_pct : Option ℚ
  one_year_pct : Option ℚ
  three_year_pct : Option ℚ
  passes_day : Bool
  passes_week : Bool
  passes_month : Bool
  data : PriceSeries
deriving DecidableEq

/-- Pass flag for a mandatory horizon: `abs(change) >= threshold`. -/
def pctPasses (threshold : ℚ) (change : ℚ) : Bool :=
  decide (threshold ≤ |change|)

/-- Pass flag for the month horizon:
`one_month_change is not None and abs(one_month_change) >= threshold`. -/
def monthPasses (threshold : ℚ) : Option ℚ → Bool
  | none => false
  | some m => decide (threshold ≤ |m|)

/-- Embedding of `screen_stock(symbol, config)`
(src/screener/screener.py, lines 151-223).  The external fetches are
explicit inputs: `dataOpt` is the result of `fetch_stock_data` (`none` for
failure/empty) and `info` the result of the metadata fetch. -/
def screen_stock (symbol : String) (dataOpt : Option PriceSeries)
    (info : Option StockInfo) (thresholds : StockThresholds) : Option StockResult :=
  match dataOpt with
  | none => none
  | some data =>
    if data.length < 5 then none
    else
      let one_day_change := calculate_percent_change data 1
      let one_week_change := calculate_percent_change data (min 5 (data.length - 1))
      let one_month_change := calculate_percent_change data (min 20 (data.length - 1))
      let one_6m_change := calculate_percent_change data (min 126 (data.length - 1))
      let one_year_change := calculate_percent_change data (min 252 (data.length - 1))
      let three_year_change := calculate_percent_change data (min 756 (data.length - 1))
      match one_day_change, one_week_change with
      | some one_day, some one_week =>
        let current_volume := currentVolume data
        let current_price := currentClose data
        let dollar_volume := current_price * current_volume
        let passes_day := pctPasses thresholds.one_day_pct_abs one_day
        let passes_week := pctPasses thresholds.one_week_pct_abs one_week
        let passes_month := monthPasses thresholds.one_month_pct_abs one_month_change
        let passes_volume : Bool := decide (thresholds.min_dollar_volume.getD 1000000000 ≤ dollar_volume)
        let passes_price : Bool := decide (thresholds.min_price.getD 0 ≤ current_price)
        if passes_volume && passes_price && (passes_day || passes_week || passes_month) then
          some
            { symbol := symbol
              company_name := some (companyNameOf symbol info)
              sector := some (sectorOf info)
              asset_class := none
              price := roundTo 2 current_price
              volume := intTrunc current_volume
              one_day_pct := roundTo 2 one_day
              one_week_pct := roundTo 2 one_week
              one_month_pct := one_month_change.map (roundTo 2)
              one_6m_pct := one_6m_change.map (roundTo 2)
              one_year_pct := one_year_change.map (roundTo 2)
              three_year_pct := three_year_change.map (roundTo 2)
              passes_day := passes_day
              passes_week := passes_week
              passes_month := passes_month
              data := data }
        else none
      | _, _ => none

/-! ### Screening orchestrator (`run_screener`, src/screener/screener.py lines 226-247) -/

/-- State threaded through the orchestrator loop: the aggregate result
list, the run-scoped seen-symbol set (a list used as a set), and a trace
of every symbol actually handed to `screen_stock` (one entry per fetch
attempt, for counting fetches). -/
structure RunState where
  results : List StockResult
  seen : List String
  trace : List String
deriving DecidableEq

/-- Body of the inner loop of `run_screener` for one symbol: skip if seen,
else fetch and screen, appending to the results and marking the symbol as
seen only when screening produced a result (the `if result:` block). -/
def runScreenerStep (fetch : String → Option PriceSeries)
    (infoOf : String → Option StockInfo) (t : StockThresholds)
    (st : RunState) (symbol : String) : RunState :=
  if symbol ∈ st.seen then st
  else
    match screen_stock symbol (fetch symbol) (infoOf symbol) t with
    | some result =>
      ⟨st.results ++ [result], st.seen ++ [symbol], st.trace ++ [symbol]⟩
    | none =>
      ⟨st.results, st.seen, st.trace ++ [symbol]⟩

/-- Embedding of `run_screener(config)`: iterate the configured exchanges'
symbol lists (the external universe provider's output), screening each
symbol through `runScreenerStep`.  `fetch` and `infoOf` stand for the
market-data and metadata collaborators, fixed for the run. -/
def run_screener (fetch : String → Option PriceSeries)
    (infoOf : String → Option StockInfo) (t : StockThresholds)
    (exchanges : List (List String)) : RunState :=
  exchanges.foldl (fun st symbols => symbols.foldl (runScreenerStep fetch infoOf t) st)
    ⟨[], [], []⟩

/-- Reference aggregation following the spec's words (4.3): process the
run's symbols in order; for each symbol not already seen, screen it and
mark it seen; collect the accepted results into one aggregate list, in
first-seen order, so cross-universe duplicates are silently dropped and
the first occurrence wins.  `run_screener`'s aggregate result list is
proved equal to this reference below. -/
def firstSeenAggregate (screen : String → Option StockResult) :
    List String → List String → List StockResult
  | _, [] => []
  | seen, s :: rest =>
    if s ∈ seen then firstSeenAggregate screen seen rest
    else
      match screen s with
      | some r => r :: firstSeenAggregate screen (seen ++ [s]) rest
      | none => firstSeenAggregate screen (seen ++ [s]) rest

/-! ### Message chunker (`send_telegram_message`, src/run_screener.py lines 148-191) -/

/-- Telegram's hard per-message limit (src/run_screener.py line 104). -/
def TELEGRAM_MAX_MESSAGE_LENGTH : Nat := 4096

/-- Python `str.rfind` on a character: highest index at which `c` occurs,
or `-1` if it does not occur. -/
def rfind (c : Char) : List Char → Int
  | [] => -1
  | x :: xs =>
    let r := rfind c xs
    if 0 ≤ r then r + 1
    else if x = c then 0 else -1

/-- One iteration of the splitting loop in `send_telegram_message`: returns
the chunk cut off this round and the remaining text.  Mirrors the source:
texts at most `maxLen` long are taken whole; otherwise prefer the last
newline past the midpoint of the window (stripping leading newlines from
the remainder), then a cut at the last `&` within 20 characters of the
window's end, then a hard cut at `maxLen`. -/
def chunkStep (maxLen : Nat) (text : List Char) : List Char × List Char :=
  if text.length ≤ maxLen then (text, [])
  else
    let chunk := text.take maxLen
    let last_newline := rfind '\n' chunk
    if (maxLen / 2 : Int) < last_newline then
      (chunk.take (last_newline.toNat + 1),
       (text.drop (last_newline.toNat + 1)).dropWhile (fun ch => ch == '\n'))
    else
      let last_amp := rfind '&' chunk
      if (maxLen : Int) - 20 < last_amp ∧ 0 < last_amp then
        (chunk.take last_amp.toNat, text.drop last_amp.toNat)
      else
        (chunk, text.drop maxLen)

/-- Final clamp applied before sending each chunk
(`if len(chunk) > 4096: chunk = chunk[:4096]`). -/
def emitChunk (chunk : List Char) : List Char :=
  if TELEGRAM_MAX_MESSAGE_LENGTH < chunk.length then chunk.take TELEGRAM_MAX_MESSAGE_LENGTH
  else chunk

/-- The splitting loop of `send_telegram_message`, with explicit fuel
standing in for the `while text:` loop (`none` means the fuel ran out
before the text was exhausted). -/
def chunksGo (maxLen : Nat) : Nat → List Char → Option (List (List Char))
  | _, [] => some []
  | 0, _ :: _ => none
  | fuel + 1, ch :: rest =>
    let step := chunkStep maxLen (ch :: rest)
    match chunksGo maxLen fuel step.2 with
    | none => none
    | some chunks => some (emitChunk step.1 :: chunks)

/-- The ordered chunk sequence `send_telegram_message` sends for a text,
using the source's `max_len = TELEGRAM_MAX_MESSAGE_LENGTH - 100 = 3996`.
The fuel `text.length` always suffices (proved below). -/
def telegram_chunks (text : List Char) : List (List Char) :=
  (chunksGo (TELEGRAM_MAX_MESSAGE_LENGTH - 100) text.length text).getD []

/-! ### Formatter ordering (`format_stock_message`, src/run_screener.py lines 289-482) -/

/-- Append a result to its sector's group, preserving first-insertion key
order (the Python dict built by `by_sector.setdefault(sector, []).append`). -/
def insertGrouped : List (String × List StockResult) → String → StockResult →
    List (String × List StockResult)
  | [], key, r => [(key, [r])]
  | (k, rs) :: rest, key, r =>
    if k = key then (k, rs ++ [r]) :: rest
    else (k, rs) :: insertGrouped rest key r

/-- The `by_sector` grouping of `format_stock_message`: results grouped by
their sector tag (`stock.get("sector", "Other")`), keys in first-seen order. -/
def groupBySector (results : List StockResult) : List (String × List StockResult) :=
  results.foldl (fun acc r => insertGrouped acc (r.sector.getD "Other") r) []

/-- The non-stock section tags excluded from the per-sector stock listing. -/
def NON_STOCK : List String := ["Crypto", "Forex", "Commodities", "ETFs"]

/-- Python `.upper()` as a character map (ASCII case mapping; the sector
and company-name sort keys this pipeline produces are ASCII). -/
def pyUpper (s : String) : List Char := s.data.map Char.toUpper

/-- Python string comparison (`<=`): lexicographic by code point. -/
def charListLE : List Char → List Char → Bool
  | [], _ => true
  | _ :: _, [] => false
  | a :: as, b :: bs => if a < b then true else if b < a then false else charListLE as bs

/-- The sector sort comparator of `format_stock_message`:
`sorted(..., key=lambda s: (s == "Other", s.upper()))`, i.e. lexicographic
on the pair (is-the-catch-all-sector, case-folded name), so `"Other"`
always sorts last and the rest sort case-insensitively. -/
def sectorKeyLE (s1 s2 : String) : Bool :=
  (!(s1 == "Other") && (s2 == "Other")) ||
    ((s1 == "Other") == (s2 == "Other") && charListLE (pyUpper s1) (pyUpper s2))

/-- The `stock_sectors` list of `format_stock_message`: the sector keys of
`by_sector` that are not non-stock sections, sorted by `sectorKeyLE`.
Python `sorted` is specified as the stable sort for the key order, and
stable insertion sort has exactly that observable behaviour. -/
def stock_sectors (results : List StockResult) : List String :=
  List.insertionSort (fun s1 s2 => sectorKeyLE s1 s2 = true)
    (((groupBySector results).map Prod.fst).filter (fun s => !(NON_STOCK.contains s)))

/-- Display key used to order instruments within a sector:
`x.get("company_name", x["symbol"]).upper()`. -/
def displayKey (r : StockResult) : List Char :=
  pyUpper (r.company_name.getD r.symbol)

/-- Within-sector instrument ordering of `format_stock_message`:
`sorted(stocks, key=lambda x: x.get("company_name", x["symbol"]).upper())`,
again as the stable sort for the key order. -/
def sortStocksByName (stocks : List StockResult) : List StockResult :=
  List.insertionSort (fun a b => charListLE (displayKey a) (displayKey b) = true) stocks

/-! ### Entry point control flow (`main`, src/run_screener.py lines 485-587) -/

/-- The externally visible steps of `main`, in the order the source
performs them.  Fetching, screening and formatting are "work"; sending is
the transport hand-off. -/
inductive MainAction where
  | fetchIndices
  | runStockScreener
  | runCryptoScreener
  | runForexScreener
  | runCommodityScreener
  | runEtfScreener
  | formatMessage
  | writeDryRunFile
  | sendMessage
  | sendCharts
deriving DecidableEq

/-- The work `main` performs before reaching the dry-run/send decision:
indices fetch and the non-stock screeners are skipped when
`MARKETSCOUT_STOCKS_ONLY` is set, the stock screener and the formatter
always run. -/
def mainWorkActions (stocksOnly : Bool) : List MainAction :=
  (if !stocksOnly then [MainAction.fetchIndices] else []) ++
    [MainAction.runStockScreener] ++
    (if !stocksOnly then
      [MainAction.runCryptoScreener, MainAction.runForexScreener,
       MainAction.runCommodityScreener, MainAction.runEtfScreener]
     else []) ++
    [MainAction.formatMessage]

/-- Python `str.strip()`: drop whitespace from both ends of the string. -/
def pyStrip (s : String) : String :=
  ⟨((s.data.dropWhile Char.isWhitespace).reverse.dropWhile Char.isWhitespace).reverse⟩

/-- Control-flow model of `main`: the ordered list of actions taken and
the outcome.  `token`/`chatId` model `os.getenv` results (`none` =
variable unset); the source computes `(os.getenv(...) or "").strip()` and
raises `RuntimeError` when either is empty, after all the work but before
any send.  `hasMessage2`/`hasCharts` abstract whether the second page is
non-empty and whether chart generation yielded files. -/
def main_run (dryRun stocksOnly : Bool) (token chatId : Option String)
    (hasMessage2 hasCharts : Bool) : List MainAction × Except String Unit :=
  let work := mainWorkActions stocksOnly
  if dryRun then
    (work ++ [MainAction.writeDryRunFile] ++
      (if hasMessage2 then [MainAction.writeDryRunFile] else []), Except.ok ())
  else
    let tokenV := pyStrip (token.getD "")
    let chatV := pyStrip (chatId.getD "")
    if tokenV = "" || chatV = "" then
      (work, Except.error "Missing TELEGRAM_BOT_TOKEN or TELEGRAM_CHAT_ID in environment/.env")
    else
      (work ++ [MainAction.sendMessage] ++
        (if hasMessage2 then [MainAction.sendMessage] else []) ++
        (if hasCharts then [MainAction.sendCharts] else []), Except.ok ())

/-! ### Concrete instances used by counterexamples and witnesses -/

/-- Series used by witness instantiations of the return-calculator claims. -/
def pcWitnessSeries : PriceSeries := [⟨10, 1⟩, ⟨12, 1⟩]

/-- Thresholds with a `min_price` gate set (the source's own comment reads
"stocks: price*volume >= $1B, price >= $10"). -/
def c1Thresholds : StockThresholds :=
  { one_day_pct_abs := 5, one_week_pct_abs := 5, one_month_pct_abs := 10
    min_dollar_volume := none, min_price := some 10 }

/-- Five observations; the last close (5) is below `min_price` (10) while
the dollar volume (5 × 10⁹) clears the liquidity gate and the 1-day move
(−50%) clears the day threshold. -/
def c1Series : PriceSeries :=
  [⟨10, 0⟩, ⟨10, 0⟩, ⟨10, 0⟩, ⟨10, 0⟩, ⟨5, 1000000000⟩]

/-- Thresholds with no optional gate set, used by several witnesses. -/
def plainThresholds : StockThresholds :=
  { one_day_pct_abs := 5, one_week_pct_abs := 5, one_month_pct_abs := 10
    min_dollar_volume := none, min_price := none }

/-- Five observations, strictly positive closes, with a 100% jump on the
last day; dollar volume 2 × 10¹⁰ passes the default liquidity gate. -/
def c3Series : PriceSeries :=
  [⟨10, 0⟩, ⟨10, 0⟩, ⟨10, 0⟩, ⟨10, 0⟩, ⟨20, 1000000000⟩]

/-- A 3998-character text: 3995 `a`s, two newlines, then a `b`.  The first
chunk cut lands right after the first newline, and the loop's
`lstrip("\n")` then discards the second newline. -/
def c4input : List Char := List.replicate 3995 'a' ++ ['\n', '\n', 'b']

/-- Minimal stock record with the given sector, for the ordering example. -/
def sectorStock (sector : String) : StockResult :=
  { symbol := "S", company_name := some "N", sector := some sector, asset_class := none
    price := 1, volume := 0, one_day_pct := 0, one_week_pct := 0, one_month_pct := none
    one_6m_pct := none, one_year_pct := none, three_year_pct := none
    passes_day := false, passes_week := false, passes_month := false, data := [] }

/-! ### Helper lemmas: return calculator -/

theorem calc_pc_none_of_short (data : PriceSeries) (n : Nat) (h : data.length < n + 1) :
    calculate_percent_change data n = none := by
  simp [calculate_percent_change, h]

theorem calc_pc_none_of_zero_ref (data : PriceSeries) (n : Nat) (h : refClose data n = 0) :
    calculate_percent_change data n = none := by
  unfold calculate_percent_change
  split
  · rfl
  · simp [h]

theorem calc_pc_of_ok (data : PriceSeries) (n : Nat) (hlen : n + 1 ≤ data.length)
    (href : refClose data n ≠ 0) :
    calculate_percent_change data n =
      some ((currentClose data - refClose data n) / refClose data n * 100) := by
  unfold calculate_percent_change
  rw [if_neg (by omega), if_neg href]

/-- C2: for every price series and every `n`, `calculate_percent_change`
returns `none` when the series has fewer than `n + 1` observations,
returns `none` when the reference price `n` positions before the latest
observation is exactly zero (never dividing by zero), and otherwise
returns `((current - past) / past) * 100` between the latest observation
and that reference. -/
theorem calculate_percent_change_spec (data : PriceSeries) (n : Nat) :
    (data.length < n + 1 → calculate_percent_change data n = none) ∧
    (refClose data n = 0 → calculate_percent_change data n = none) ∧
    (n + 1 ≤ data.length → refClose data n ≠ 0 →
      calculate_percent_change data n =
        some ((currentClose data - refClose data n) / refClose data n * 100)) :=
  ⟨calc_pc_none_of_short data n, calc_pc_none_of_zero_ref data n, calc_pc_of_ok data n⟩

/-- Witness: `calculate_percent_change_spec` applied to a concrete
two-observation series at `n = 1` (a 20% rise from 10 to 12). -/
theorem calculate_percent_change_spec_witness :
    1 + 1 ≤ pcWitnessSeries.length ∧ refClose pcWitnessSeries 1 ≠ 0 ∧
    calculate_percent_change pcWitnessSeries 1 =
      some ((currentClose pcWitnessSeries - refClose pcWitnessSeries 1) /
        refClose pcWitnessSeries 1 * 100) :=
  ⟨by decide, by decide,
    (calculate_percent_change_spec pcWitnessSeries 1).2.2 (by decide) (by decide)⟩

/-! ### Helper lemmas: stock screener -/

theorem screen_stock_some_symbol (symbol : String) (dataOpt : Option PriceSeries)
    (info : Option StockInfo) (t : StockThresholds) (r : StockResult)
    (h : screen_stock symbol dataOpt info t = some r) : r.symbol = symbol := by
  unfold screen_stock at h
  cases dataOpt with
  | none => exact absurd h (by simp)
  | some data =>
    simp only at h
    split at h
    · exact absurd h (by simp)
    · split at h
      · split at h
        · cases h
          rfl
        · exact absurd h (by simp)
      · exact absurd h (by simp)

theorem screen_stock_ne_none_iff (symbol : String) (data : PriceSeries)
    (info : Option StockInfo) (t : StockThresholds)
    (h5 : 5 ≤ data.length) (d w : ℚ)
    (hd : calculate_percent_change data 1 = some d)
    (hw : calculate_percent_change data (min 5 (data.length - 1)) = some w) :
    (screen_stock symbol (some data) info t ≠ none ↔
      (t.min_dollar_volume.getD 1000000000 ≤ currentClose data * currentVolume data ∧
       t.min_price.getD 0 ≤ currentClose data ∧
       (pctPasses t.one_day_pct_abs d = true ∨
        pctPasses t.one_week_pct_abs w = true ∨
        monthPasses t.one_month_pct_abs
          (calculate_percent_change data (min 20 (data.length - 1))) = true))) := by
  unfold screen_stock
  simp only [hd, hw]
  rw [if_neg (Nat.not_lt.mpr h5)]
  split
  next hcond =>
    simp only [ne_eq, reduceCtorEq, not_false_iff, true_iff]
    simp only [Bool.and_eq_true, Bool.or_eq_true, decide_eq_true_eq] at hcond
    exact ⟨hcond.1.1, hcond.1.2, or_assoc.mp hcond.2⟩
  next hcond =>
    simp only [ne_eq, not_true, false_iff]
    intro hRHS
    exact hcond (by
      simp only [Bool.and_eq_true, Bool.or_eq_true, decide_eq_true_eq]
      exact ⟨⟨hRHS.1, hRHS.2.1⟩, or_assoc.mpr hRHS.2.2⟩)

theorem c1Series_day : calculate_percent_change c1Series 1 = some (-50) := by
  have h2 : refClose c1Series 1 = 10 := rfl
  rw [calc_pc_of_ok c1Series 1 (by decide) (by rw [h2]; norm_num)]
  rw [show currentClose c1Series = 5 from rfl, h2]
  norm_num

theorem c1Series_week :
    calculate_percent_change c1Series (min 5 (c1Series.length - 1)) = some (-50) := by
  have h2 : refClose c1Series (min 5 (c1Series.length - 1)) = 10 := rfl
  rw [calc_pc_of_ok c1Series _ (by decide) (by rw [h2]; norm_num)]
  rw [show currentClose c1Series = 5 from rfl, h2]
  norm_num

theorem c1Series_day_flag : pctPasses c1Thresholds.one_day_pct_abs (-50) = true := by
  simp only [pctPasses, c1Thresholds, decide_eq_true_eq]
  norm_num

theorem c1Series_liquidity :
    c1Thresholds.min_dollar_volume.getD 1000000000 ≤
      currentClose c1Series * currentVolume c1Series := by
  rw [show currentClose c1Series = 5 from rfl, show currentVolume c1Series = 1000000000 from rfl]
  show (1000000000 : ℚ) ≤ 5 * 1000000000
  norm_num

/-- C1 counterexample: the liquidity gate passes and `passes_day` is true,
yet `screen_stock` returns no result, because the source additionally
requires `current_price >= thresholds.get("min_price", 0)` and the current
price (5) is below `min_price` (10).  This refutes "a result is returned
if and only if the liquidity gate passes and at least one pass flag is
true; no other condition affects acceptance". -/
theorem screen_stock_min_price_counterexample :
    screen_stock "X" (some c1Series) none c1Thresholds = none ∧
    c1Thresholds.min_dollar_volume.getD 1000000000 ≤
      currentClose c1Series * currentVolume c1Series ∧
    calculate_percent_change c1Series 1 = some (-50) ∧
    pctPasses c1Thresholds.one_day_pct_abs (-50) = true := by
  refine ⟨?_, c1Series_liquidity, c1Series_day, c1Series_day_flag⟩
  have h := screen_stock_ne_none_iff "X" c1Series none c1Thresholds (by decide) (-50) (-50)
    c1Series_day c1Series_week
  by_contra hne
  rcases h.mp hne with ⟨-, hprice, -⟩
  rw [show currentClose c1Series = 5 from rfl] at hprice
  have : c1Thresholds.min_price.getD 0 = 10 := rfl
  rw [this] at hprice
  norm_num at hprice

/-- C1 amended: for every stock whose fetched series has at least 5
observations and whose 1-day and 1-week changes are computable,
`screen_stock` returns a result if and only if the liquidity gate passes
(dollar volume ≥ `min_dollar_volume`, default 10⁹) AND the price gate
passes (price ≥ `min_price`, default 0) AND at least one of `passes_day`,
`passes_week`, `passes_month` is true; no further condition affects
acceptance. -/
theorem screen_stock_accept_iff (symbol : String) (data : PriceSeries)
    (info : Option StockInfo) (t : StockThresholds)
    (h5 : 5 ≤ data.length) (d w : ℚ)
    (hd : calculate_percent_change data 1 = some d)
    (hw : calculate_percent_change data (min 5 (data.length - 1)) = some w) :
    (screen_stock symbol (some data) info t ≠ none ↔
      (t.min_dollar_volume.getD 1000000000 ≤ currentClose data * currentVolume data ∧
       t.min_price.getD 0 ≤ currentClose data ∧
       (pctPasses t.one_day_pct_abs d = true ∨
        pctPasses t.one_week_pct_abs w = true ∨
        monthPasses t.one_month_pct_abs
          (calculate_percent_change data (min 20 (data.length - 1))) = true))) :=
  screen_stock_ne_none_iff symbol data info t h5 d w hd hw

/-- Witness: `screen_stock_accept_iff` instantiated at `c1Series` with the
gate-free thresholds (all hypotheses discharged by evaluation). -/
theorem screen_stock_accept_iff_witness :
    5 ≤ c1Series.length ∧
    (screen_stock "X" (some c1Series) none plainThresholds ≠ none ↔
      (plainThresholds.min_dollar_volume.getD 1000000000 ≤
        currentClose c1Series * currentVolume c1Series ∧
       plainThresholds.min_price.getD 0 ≤ currentClose c1Series ∧
       (pctPasses plainThresholds.one_day_pct_abs (-50) = true ∨
        pctPasses plainThresholds.one_week_pct_abs (-50) = true ∨
        monthPasses plainThresholds.one_month_pct_abs
          (calculate_percent_change c1Series (min 20 (c1Series.length - 1))) = true))) :=
  ⟨by decide,
    screen_stock_accept_iff "X" c1Series none plainThresholds (by decide) (-50) (-50)
      c1Series_day c1Series_week⟩

theorem c3Series_day : calculate_percent_change c3Series 1 = some 100 := by
  have h2 : refClose c3Series 1 = 10 := rfl
  rw [calc_pc_of_ok c3Series 1 (by decide) (by rw [h2]; norm_num)]
  rw [show currentClose c3Series = 20 from rfl, h2]
  norm_num

theorem c3Series_week :
    calculate_percent_change c3Series (min 5 (c3Series.length - 1)) = some 100 := by
  have h2 : refClose c3Series (min 5 (c3Series.length - 1)) = 10 := rfl
  rw [calc_pc_of_ok c3Series _ (by decide) (by rw [h2]; norm_num)]
  rw [show currentClose c3Series = 20 from rfl, h2]
  norm_num

/-- C3 counterexample: a series long enough to be screened (exactly 5
observations, fewer than the 6 a full 1-week lookback needs) whose 1-week
change is nonetheless available — the source clamps the week horizon to
`min(5, len - 1)` — and which `screen_stock` accepts rather than rejects.
This refutes "1-day and 1-week are mandatory and not clamped: a series
with at least 5 but fewer than 6 observations has an unavailable 1-week
change and is rejected". -/
theorem week_horizon_counterexample :
    c3Series.length = 5 ∧
    calculate_percent_change c3Series (min 5 (c3Series.length - 1)) = some 100 ∧
    screen_stock "Y" (some c3Series) none plainThresholds ≠ none := by
  refine ⟨by decide, c3Series_week, ?_⟩
  rw [screen_stock_ne_none_iff "Y" c3Series none plainThresholds (by decide) 100 100
    c3Series_day c3Series_week]
  refine ⟨?_, ?_, Or.inl ?_⟩
  · rw [show currentClose c3Series = 20 from rfl,
      show currentVolume c3Series = 1000000000 from rfl]
    show (1000000000 : ℚ) ≤ 20 * 1000000000
    norm_num
  · rw [show currentClose c3Series = 20 from rfl]
    show (0 : ℚ) ≤ 20
    norm_num
  · simp only [pctPasses, plainThresholds, decide_eq_true_eq]
    norm_num

/-- C3 amended: the 1-week horizon is clamped to `min(5, length - 1)` just
like the longer horizons, so every series long enough to be screened (at
least 5 observations) yields an available best-effort 1-week change, and
an available 1-day change, whenever the respective reference closes are
nonzero; such a series is not rejected for insufficient week history. -/
theorem week_horizon_clamped (data : PriceSeries) (h5 : 5 ≤ data.length)
    (hw : refClose data (min 5 (data.length - 1)) ≠ 0)
    (hd : refClose data 1 ≠ 0) :
    calculate_percent_change data (min 5 (data.length - 1)) ≠ none ∧
    calculate_percent_change data 1 ≠ none := by
  constructor
  · rw [calc_pc_of_ok data (min 5 (data.length - 1)) (by omega) hw]
    exact Option.some_ne_none _
  · rw [calc_pc_of_ok data 1 (by omega) hd]
    exact Option.some_ne_none _

/-- Witness: `week_horizon_clamped` at the concrete 5-observation series. -/
theorem week_horizon_clamped_witness :
    5 ≤ c3Series.length ∧
    calculate_percent_change c3Series (min 5 (c3Series.length - 1)) ≠ none ∧
    calculate_percent_change c3Series 1 ≠ none :=
  ⟨by decide, week_horizon_clamped c3Series (by decide) (by decide) (by decide)⟩

/-! ### Helper lemmas: screening orchestrator -/

theorem foldl_preserve {α σ : Type _} (P : σ → Prop) (f : σ → α → σ)
    (hf : ∀ st a, P st → P (f st a)) :
    ∀ (l : List α) (st : σ), P st → P (l.foldl f st)
  | [], _, h => h
  | a :: l, st, h => foldl_preserve P f hf l (f st a) (hf st a h)

theorem run_screener_preserve (fetch : String → Option PriceSeries)
    (infoOf : String → Option StockInfo) (t : StockThresholds)
    (P : RunState → Prop)
    (hstep : ∀ st sym, P st → P (runScreenerStep fetch infoOf t st sym))
    (exchanges : List (List String)) (hinit : P ⟨[], [], []⟩) :
    P (run_screener fetch infoOf t exchanges) := by
  unfold run_screener
  exact foldl_preserve P _
    (fun st symbols hp => foldl_preserve P _ hstep symbols st hp) exchanges _ hinit

theorem runScreenerStep_trace_inv (fetch : String → Option PriceSeries)
    (infoOf : String → Option StockInfo) (t : StockThresholds) (s : String)
    (h : screen_stock s (fetch s) (infoOf s) t ≠ none)
    (st : RunState) (sym : String)
    (hp : st.trace.count s ≤ 1 ∧ (st.trace.count s = 1 → s ∈ st.seen)) :
    (runScreenerStep fetch infoOf t st sym).trace.count s ≤ 1 ∧
      ((runScreenerStep fetch infoOf t st sym).trace.count s = 1 →
        s ∈ (runScreenerStep fetch infoOf t st sym).seen) := by
  unfold runScreenerStep
  split
  · exact hp
  next hnotseen =>
    by_cases hss : sym = s
    · subst hss
      have hc0 : st.trace.count sym = 0 := by
        rcases Nat.lt_or_ge (st.trace.count sym) 1 with h1 | h1
        · omega
        · have h2 : st.trace.count sym = 1 := by omega
          exact absurd (hp.2 h2) hnotseen
      cases hm : screen_stock sym (fetch sym) (infoOf sym) t with
      | none => exact absurd hm h
      | some r =>
        refine ⟨?_, fun _ => ?_⟩
        · show (st.trace ++ [sym]).count sym ≤ 1
          rw [List.count_append, hc0, List.count_singleton_self]
        · show sym ∈ st.seen ++ [sym]
          exact List.mem_append_right _ (List.mem_singleton.mpr rfl)
    · have hcount : (st.trace ++ [sym]).count s = st.trace.count s := by
        rw [List.count_append, List.count_singleton]
        simp [hss]
      cases hm : screen_stock sym (fetch sym) (infoOf sym) t with
      | some r =>
        refine ⟨?_, fun h1 => ?_⟩
        · show (st.trace ++ [sym]).count s ≤ 1
          rw [hcount]; exact hp.1
        · show s ∈ st.seen ++ [sym]
          rw [show (⟨st.results ++ [r], st.seen ++ [sym], st.trace ++ [sym]⟩ :
            RunState).trace.count s = (st.trace ++ [sym]).count s from rfl, hcount] at h1
          exact List.mem_append_left _ (hp.2 h1)
      | none =>
        refine ⟨?_, fun h1 => ?_⟩
        · show (st.trace ++ [sym]).count s ≤ 1
          rw [hcount]; exact hp.1
        · show s ∈ st.seen
          rw [show (⟨st.results, st.seen, st.trace ++ [sym]⟩ :
            RunState).trace.count s = (st.trace ++ [sym]).count s from rfl, hcount] at h1
          exact hp.2 h1

/-- C6 counterexample: the seen-symbol set is only updated when screening
produced a result (`seen_symbols.add` sits inside `if result:`), so a
symbol whose screening yields nothing — here the market-data fetch fails —
is fetched and screened again when a second universe lists it.  This
refutes "each symbol's price series is fetched and screened at most once,
regardless of whether its earlier screening produced a result". -/
theorem symbol_refetched_counterexample :
    ¬ ((run_screener (fun _ => none) (fun _ => none) plainThresholds
        [["X"], ["X"]]).trace.count "X" ≤ 1) := by decide

/-- C6 amended: a symbol already seen in this run is skipped before any
fetch, but a symbol is marked seen only when its screening produced a
result; hence any symbol whose screening produces a result is fetched and
screened at most once during a run, while symbols producing no result may
be re-fetched when they reappear. -/
theorem fetched_once_of_match (fetch : String → Option PriceSeries)
    (infoOf : String → Option StockInfo) (t : StockThresholds)
    (exchanges : List (List String)) (s : String)
    (h : screen_stock s (fetch s) (infoOf s) t ≠ none) :
    (run_screener fetch infoOf t exchanges).trace.count s ≤ 1 :=
  (run_screener_preserve fetch infoOf t
    (fun st => st.trace.count s ≤ 1 ∧ (st.trace.count s = 1 → s ∈ st.seen))
    (fun st sym hp => runScreenerStep_trace_inv fetch infoOf t s h st sym hp)
    exchanges ⟨by simp, by simp⟩).1

theorem screen_c3_ne_none (sym : String) :
    screen_stock sym (some c3Series) none plainThresholds ≠ none := by
  rw [screen_stock_ne_none_iff sym c3Series none plainThresholds (by decide) 100 100
    c3Series_day c3Series_week]
  refine ⟨?_, ?_, Or.inl ?_⟩
  · rw [show currentClose c3Series = 20 from rfl,
      show currentVolume c3Series = 1000000000 from rfl]
    show (1000000000 : ℚ) ≤ 20 * 1000000000
    norm_num
  · rw [show currentClose c3Series = 20 from rfl]
    show (0 : ℚ) ≤ 20
    norm_num
  · simp only [pctPasses, plainThresholds, decide_eq_true_eq]
    norm_num

/-- Witness: `fetched_once_of_match` on a run where symbol "A", listed by
both universes, screens successfully. -/
theorem fetched_once_of_match_witness :
    screen_stock "A" (some c3Series) none plainThresholds ≠ none ∧
    (run_screener (fun _ => some c3Series) (fun _ => none) plainThresholds
      [["A"], ["A"]]).trace.count "A" ≤ 1 :=
  ⟨screen_c3_ne_none "A",
    fetched_once_of_match (fun _ => some c3Series) (fun _ => none) plainThresholds
      [["A"], ["A"]] "A" (screen_c3_ne_none "A")⟩

theorem runScreenerStep_results_inv (fetch : String → Option PriceSeries)
    (infoOf : String → Option StockInfo) (t : StockThresholds) (s : String)
    (st : RunState) (sym : String)
    (hp : st.results.filter (fun r => r.symbol == s) = [] ∨
      ∃ r, st.results.filter (fun r => r.symbol == s) = [r] ∧
        screen_stock s (fetch s) (infoOf s) t = some r ∧ s ∈ st.seen) :
    (runScreenerStep fetch infoOf t st sym).results.filter (fun r => r.symbol == s) = [] ∨
      ∃ r, (runScreenerStep fetch infoOf t st sym).results.filter (fun r => r.symbol == s) = [r] ∧
        screen_stock s (fetch s) (infoOf s) t = some r ∧
        s ∈ (runScreenerStep fetch infoOf t st sym).seen := by
  unfold runScreenerStep
  split
  · exact hp
  next hnotseen =>
    by_cases hss : sym = s
    · subst hss
      cases hm : screen_stock sym (fetch sym) (infoOf sym) t with
      | none =>
        rcases hp with hemp | ⟨r', h1, h2, hseen⟩
        · exact Or.inl hemp
        · exact absurd hseen hnotseen
      | some r =>
        rcases hp with hemp | ⟨r', h1, h2, hseen⟩
        · right
          refine ⟨r, ?_, rfl, List.mem_append_right _ (List.mem_singleton.mpr rfl)⟩
          show (st.results ++ [r]).filter (fun x => x.symbol == sym) = [r]
          rw [List.filter_append, hemp]
          have hr : r.symbol = sym := screen_stock_some_symbol _ _ _ _ _ hm
          simp [hr]
        · exact absurd hseen hnotseen
    · cases hm : screen_stock sym (fetch sym) (infoOf sym) t with
      | none => exact hp
      | some r =>
        have hr : r.symbol = sym := screen_stock_some_symbol _ _ _ _ _ hm
        have hfil : (st.results ++ [r]).filter (fun x => x.symbol == s) =
            st.results.filter (fun x => x.symbol == s) := by
          rw [List.filter_append]
          simp [hr, hss]
        rcases hp with hemp | ⟨r', h1, h2, hseen⟩
        · left
          show (st.results ++ [r]).filter (fun x => x.symbol == s) = []
          rw [hfil, hemp]
        · right
          refine ⟨r', ?_, h2, List.mem_append_left _ hseen⟩
          show (st.results ++ [r]).filter (fun x => x.symbol == s) = [r']
          rw [hfil, h1]

/-- Per-symbol consequence of the run-state invariant: the aggregate
result list holds at most one result per symbol, equal to that symbol's
screening outcome. -/
theorem results_contain_symbol_at_most_once (fetch : String → Option PriceSeries)
    (infoOf : String → Option StockInfo) (t : StockThresholds)
    (exchanges : List (List String)) (s : String) :
    (run_screener fetch infoOf t exchanges).results.filter (fun r => r.symbol == s) = [] ∨
      ∃ r, (run_screener fetch infoOf t exchanges).results.filter (fun r => r.symbol == s) = [r] ∧
        screen_stock s (fetch s) (infoOf s) t = some r :=
  match run_screener_preserve fetch infoOf t
    (fun st => st.results.filter (fun r => r.symbol == s) = [] ∨
      ∃ r, st.results.filter (fun r => r.symbol == s) = [r] ∧
        screen_stock s (fetch s) (infoOf s) t = some r ∧ s ∈ st.seen)
    (fun st sym hp => runScreenerStep_results_inv fetch infoOf t s st sym hp)
    exchanges (Or.inl rfl) with
  | Or.inl h => Or.inl h
  | Or.inr ⟨r, h1, h2, _⟩ => Or.inr ⟨r, h1, h2⟩

theorem runScreenerStep_eq_of_seen (fetch : String → Option PriceSeries)
    (infoOf : String → Option StockInfo) (t : StockThresholds)
    (st : RunState) (sym : String) (h : sym ∈ st.seen) :
    runScreenerStep fetch infoOf t st sym = st := by
  unfold runScreenerStep
  rw [if_pos h]

theorem runScreenerStep_eq_of_match (fetch : String → Option PriceSeries)
    (infoOf : String → Option StockInfo) (t : StockThresholds)
    (st : RunState) (sym : String) (r : StockResult) (h1 : sym ∉ st.seen)
    (h2 : screen_stock sym (fetch sym) (infoOf sym) t = some r) :
    runScreenerStep fetch infoOf t st sym =
      ⟨st.results ++ [r], st.seen ++ [sym], st.trace ++ [sym]⟩ := by
  unfold runScreenerStep
  rw [if_neg h1, h2]

theorem runScreenerStep_eq_of_no_result (fetch : String → Option PriceSeries)
    (infoOf : String → Option StockInfo) (t : StockThresholds)
    (st : RunState) (sym : String) (h1 : sym ∉ st.seen)
    (h2 : screen_stock sym (fetch sym) (infoOf sym) t = none) :
    runScreenerStep fetch infoOf t st sym =
      ⟨st.results, st.seen, st.trace ++ [sym]⟩ := by
  unfold runScreenerStep
  rw [if_neg h1, h2]

theorem firstSeenAggregate_cons_seen (screen : String → Option StockResult)
    (seen : List String) (s : String) (rest : List String) (h : s ∈ seen) :
    firstSeenAggregate screen seen (s :: rest) = firstSeenAggregate screen seen rest := by
  simp only [firstSeenAggregate]
  rw [if_pos h]

theorem firstSeenAggregate_cons_match (screen : String → Option StockResult)
    (seen : List String) (s : String) (rest : List String) (r : StockResult)
    (h1 : s ∉ seen) (h2 : screen s = some r) :
    firstSeenAggregate screen seen (s :: rest) =
      r :: firstSeenAggregate screen (seen ++ [s]) rest := by
  simp only [firstSeenAggregate]
  rw [if_neg h1, h2]

theorem firstSeenAggregate_cons_no_result (screen : String → Option StockResult)
    (seen : List String) (s : String) (rest : List String)
    (h1 : s ∉ seen) (h2 : screen s = none) :
    firstSeenAggregate screen seen (s :: rest) =
      firstSeenAggregate screen (seen ++ [s]) rest := by
  simp only [firstSeenAggregate]
  rw [if_neg h1, h2]

theorem runScreener_foldl_refines (fetch : String → Option PriceSeries)
    (infoOf : String → Option StockInfo) (t : StockThresholds) :
    ∀ (symbols : List String) (st : RunState) (seenR : List String),
      (∀ x, x ∈ st.seen → x ∈ seenR) →
      (∀ x, x ∈ seenR → x ∉ st.seen → screen_stock x (fetch x) (infoOf x) t = none) →
      (symbols.foldl (runScreenerStep fetch infoOf t) st).results =
        st.results ++ firstSeenAggregate
          (fun sym => screen_stock sym (fetch sym) (infoOf sym) t) seenR symbols
  | [], st, seenR, _, _ => by simp [firstSeenAggregate]
  | s :: rest, st, seenR, hsub, hnone => by
    rw [List.foldl_cons]
    by_cases hseenC : s ∈ st.seen
    · rw [runScreenerStep_eq_of_seen fetch infoOf t st s hseenC,
        firstSeenAggregate_cons_seen _ _ _ _ (hsub s hseenC)]
      exact runScreener_foldl_refines fetch infoOf t rest st seenR hsub hnone
    · by_cases hseenR : s ∈ seenR
      · rw [runScreenerStep_eq_of_no_result fetch infoOf t st s hseenC
          (hnone s hseenR hseenC), firstSeenAggregate_cons_seen _ _ _ _ hseenR]
        exact runScreener_foldl_refines fetch infoOf t rest
          ⟨st.results, st.seen, st.trace ++ [s]⟩ seenR hsub hnone
      · cases hm : screen_stock s (fetch s) (infoOf s) t with
        | some r =>
          rw [runScreenerStep_eq_of_match fetch infoOf t st s r hseenC hm,
            firstSeenAggregate_cons_match _ _ _ _ r hseenR hm]
          rw [runScreener_foldl_refines fetch infoOf t rest
            ⟨st.results ++ [r], st.seen ++ [s], st.trace ++ [s]⟩ (seenR ++ [s])
            (fun x hx => by
              rcases List.mem_append.mp hx with hx' | hx'
              · exact List.mem_append_left _ (hsub x hx')
              · exact List.mem_append_right _ hx')
            (fun x hx hnx => by
              rcases List.mem_append.mp hx with hx' | hx'
              · exact hnone x hx' (fun hc => hnx (List.mem_append_left _ hc))
              · exact absurd (List.mem_append_right st.seen hx') hnx)]
          rw [List.append_assoc]
          rfl
        | none =>
          rw [runScreenerStep_eq_of_no_result fetch infoOf t st s hseenC hm,
            firstSeenAggregate_cons_no_result _ _ _ _ hseenR hm]
          exact runScreener_foldl_refines fetch infoOf t rest
            ⟨st.results, st.seen, st.trace ++ [s]⟩ (seenR ++ [s])
            (fun x hx => List.mem_append_left _ (hsub x hx))
            (fun x hx hnx => by
              rcases List.mem_append.mp hx with hx' | hx'
              · exact hnone x hx' hnx
              · rw [List.mem_singleton.mp hx']
                exact hm)

theorem foldl_foldl_eq_foldl_flatten {α σ : Type _} (f : σ → α → σ) :
    ∀ (ls : List (List α)) (init : σ),
      ls.foldl (fun st l => l.foldl f st) init = ls.flatten.foldl f init
  | [], _ => rfl
  | l :: ls, init => by
    rw [List.foldl_cons, List.flatten_cons, List.foldl_append]
    exact foldl_foldl_eq_foldl_flatten f ls (l.foldl f init)

/-- C7: the orchestrator's aggregate result list is exactly the spec's
first-seen aggregation of the run's symbols — results appear in
first-seen order, with the first occurrence of each symbol winning — and
consequently, for every pair of universes sharing a symbol and every
screening outcome, the list contains a result for that symbol at most
once: either none, or exactly one, equal to the symbol's (run-scoped)
screening outcome. -/
theorem results_first_seen_order_dedup (fetch : String → Option PriceSeries)
    (infoOf : String → Option StockInfo) (t : StockThresholds)
    (exchanges : List (List String)) (s : String) :
    (run_screener fetch infoOf t exchanges).results =
      firstSeenAggregate (fun sym => screen_stock sym (fetch sym) (infoOf sym) t) []
        exchanges.flatten ∧
    ((run_screener fetch infoOf t exchanges).results.filter (fun r => r.symbol == s) = [] ∨
      ∃ r, (run_screener fetch infoOf t exchanges).results.filter (fun r => r.symbol == s) = [r] ∧
        screen_stock s (fetch s) (infoOf s) t = some r) := by
  constructor
  · unfold run_screener
    rw [foldl_foldl_eq_foldl_flatten (runScreenerStep fetch infoOf t) exchanges ⟨[], [], []⟩]
    rw [runScreener_foldl_refines fetch infoOf t exchanges.flatten ⟨[], [], []⟩ []
      (fun x hx => hx) (fun x hx => absurd hx (List.not_mem_nil x))]
    rfl
  · exact results_contain_symbol_at_most_once fetch infoOf t exchanges s

/-! ### Helper lemmas: message chunker -/

theorem rfind_lt_length (c : Char) : ∀ l : List Char, rfind c l < (l.length : Int)
  | [] => by simp [rfind]
  | x :: xs => by
    have ih := rfind_lt_length c xs
    simp only [rfind, List.length_cons]
    split
    · push_cast
      omega
    · split
      · push_cast
        omega
      · push_cast
        omega

theorem chunkStep_decompose (maxLen : Nat) (text : List Char) :
    ∃ sep, text = (chunkStep maxLen text).1 ++ sep ++ (chunkStep maxLen text).2 ∧
      ∀ ch ∈ sep, ch = '\n' := by
  unfold chunkStep
  split
  · exact ⟨[], by simp, by simp⟩
  next hlen =>
    dsimp only
    split
    next hnl =>
      refine ⟨(text.drop ((rfind '\n' (text.take maxLen)).toNat + 1)).takeWhile
        (fun ch => ch == '\n'), ?_, ?_⟩
      · have hb := rfind_lt_length '\n' (text.take maxLen)
        have hlen2 : (text.take maxLen).length ≤ maxLen := List.length_take_le _ _
        have hd2 : (0 : Int) ≤ (maxLen : Int) / 2 := by positivity
        have hle : (rfind '\n' (text.take maxLen)).toNat + 1 ≤ maxLen := by omega
        rw [List.take_take, Nat.min_eq_left hle, List.append_assoc,
          List.takeWhile_append_dropWhile]
        exact (List.take_append_drop _ text).symm
      · intro ch hch
        have hpred := List.mem_takeWhile_imp hch
        simpa using hpred
    next hnl =>
      split
      next hamp =>
        refine ⟨[], ?_, by simp⟩
        have hb := rfind_lt_length '&' (text.take maxLen)
        have hlen2 : (text.take maxLen).length ≤ maxLen := List.length_take_le _ _
        have hle : (rfind '&' (text.take maxLen)).toNat ≤ maxLen := by omega
        rw [List.take_take, Nat.min_eq_left hle, List.append_nil]
        exact (List.take_append_drop _ text).symm
      next =>
        refine ⟨[], ?_, by simp⟩
        rw [List.append_nil]
        exact (List.take_append_drop _ text).symm

theorem chunkStep_fst_length_le (maxLen : Nat) (text : List Char) :
    (chunkStep maxLen text).1.length ≤ maxLen := by
  unfold chunkStep
  split
  next h => simpa using h
  next h =>
    dsimp only
    split
    next => exact le_trans (List.length_take_le' _ _) (List.length_take_le _ _)
    next =>
      split
      next => exact le_trans (List.length_take_le' _ _) (List.length_take_le _ _)
      next => exact List.length_take_le _ _

theorem chunkStep_snd_length_lt (maxLen : Nat) (hm : 1 ≤ maxLen) (text : List Char)
    (h : text ≠ []) : (chunkStep maxLen text).2.length < text.length := by
  have hpos : 0 < text.length := List.length_pos.mpr h
  unfold chunkStep
  split
  next => simpa using hpos
  next hlen =>
    dsimp only
    split
    next hnl =>
      have hsub : ((text.drop ((rfind '\n' (text.take maxLen)).toNat + 1)).dropWhile
          (fun ch => ch == '\n')).length ≤
          (text.drop ((rfind '\n' (text.take maxLen)).toNat + 1)).length :=
        (List.dropWhile_sublist _).length_le
      have hdrop : (text.drop ((rfind '\n' (text.take maxLen)).toNat + 1)).length =
          text.length - ((rfind '\n' (text.take maxLen)).toNat + 1) := List.length_drop _ _
      simp only
      omega
    next =>
      split
      next hamp =>
        have h1 : (0 : Int) < rfind '&' (text.take maxLen) := hamp.2
        simp only [List.length_drop]
        omega
      next =>
        simp only [List.length_drop]
        omega

theorem chunkStep_fst_ne_nil (maxLen : Nat) (hm : 1 ≤ maxLen) (text : List Char)
    (h : text ≠ []) : (chunkStep maxLen text).1 ≠ [] := by
  have hpos : 0 < text.length := List.length_pos.mpr h
  unfold chunkStep
  split
  next => exact h
  next hlen =>
    dsimp only
    split
    next =>
      rw [← List.length_pos, List.length_take, List.length_take]
      omega
    next =>
      split
      next hamp =>
        have h1 : (0 : Int) < rfind '&' (text.take maxLen) := hamp.2
        rw [← List.length_pos, List.length_take, List.length_take]
        omega
      next =>
        rw [← List.length_pos, List.length_take]
        omega

theorem chunksGo_isSome (maxLen : Nat) (hm : 1 ≤ maxLen) (fuel : Nat) :
    ∀ text : List Char, text.length ≤ fuel → (chunksGo maxLen fuel text).isSome = true := by
  induction fuel with
  | zero =>
    intro text h
    cases text with
    | nil => simp [chunksGo]
    | cons ch rest => simp at h
  | succ n ih =>
    intro text h
    cases text with
    | nil => simp [chunksGo]
    | cons ch rest =>
      have hlt := chunkStep_snd_length_lt maxLen hm (ch :: rest) (by simp)
      have hh : (chunkStep maxLen (ch :: rest)).2.length ≤ n := by
        simp only [List.length_cons] at h hlt
        omega
      have ihs := ih _ hh
      simp only [chunksGo]
      cases heq : chunksGo maxLen n (chunkStep maxLen (ch :: rest)).2 with
      | none => rw [heq] at ihs; simp at ihs
      | some l => simp

theorem chunksGo_chunk_le (maxLen : Nat) (hm : maxLen ≤ TELEGRAM_MAX_MESSAGE_LENGTH)
    (fuel : Nat) :
    ∀ (text : List Char) (l : List (List Char)), chunksGo maxLen fuel text = some l →
      ∀ c ∈ l, c.length ≤ maxLen := by
  induction fuel with
  | zero =>
    intro text l h c hc
    cases text with
    | nil =>
      simp only [chunksGo, Option.some.injEq] at h
      subst h
      simp at hc
    | cons ch rest => simp [chunksGo] at h
  | succ n ih =>
    intro text l h c hc
    cases text with
    | nil =>
      simp only [chunksGo, Option.some.injEq] at h
      subst h
      simp at hc
    | cons ch rest =>
      simp only [chunksGo] at h
      cases heq : chunksGo maxLen n (chunkStep maxLen (ch :: rest)).2 with
      | none => rw [heq] at h; simp at h
      | some l2 =>
        rw [heq] at h
        simp only [Option.some.injEq] at h
        subst h
        rcases List.mem_cons.mp hc with hc1 | hc2
        · subst hc1
          have hb := chunkStep_fst_length_le maxLen (ch :: rest)
          unfold emitChunk
          rw [if_neg (by unfold TELEGRAM_MAX_MESSAGE_LENGTH at hm ⊢; omega)]
          exact hb
        · exact ih _ _ heq c hc2

theorem chunksGo_flatten (maxLen : Nat) (hm : maxLen ≤ TELEGRAM_MAX_MESSAGE_LENGTH)
    (fuel : Nat) :
    ∀ (text : List Char) (l : List (List Char)), chunksGo maxLen fuel text = some l →
      l.flatten.Sublist text ∧
      l.flatten.filter (fun ch => !(ch == '\n')) = text.filter (fun ch => !(ch == '\n')) := by
  induction fuel with
  | zero =>
    intro text l h
    cases text with
    | nil =>
      simp only [chunksGo, Option.some.injEq] at h
      subst h
      simp
    | cons ch rest => simp [chunksGo] at h
  | succ n ih =>
    intro text l h
    cases text with
    | nil =>
      simp only [chunksGo, Option.some.injEq] at h
      subst h
      simp
    | cons ch rest =>
      simp only [chunksGo] at h
      cases heq : chunksGo maxLen n (chunkStep maxLen (ch :: rest)).2 with
      | none => rw [heq] at h; simp at h
      | some l2 =>
        rw [heq] at h
        simp only [Option.some.injEq] at h
        subst h
        obtain ⟨hsub2, hfil2⟩ := ih _ _ heq
        obtain ⟨sep, hdec, hsep⟩ := chunkStep_decompose maxLen (ch :: rest)
        have hemit : emitChunk (chunkStep maxLen (ch :: rest)).1 =
            (chunkStep maxLen (ch :: rest)).1 := by
          unfold emitChunk
          rw [if_neg]
          have hb := chunkStep_fst_length_le maxLen (ch :: rest)
          unfold TELEGRAM_MAX_MESSAGE_LENGTH at hm ⊢
          omega
        rw [List.flatten_cons, hemit]
        set cpart := (chunkStep maxLen (ch :: rest)).1
        set rpart := (chunkStep maxLen (ch :: rest)).2
        have hsepnil : sep.filter (fun ch => !(ch == '\n')) = [] := by
          rw [List.filter_eq_nil_iff]
          intro a ha
          rw [hsep a ha]
          simp
        constructor
        · rw [hdec, List.append_assoc]
          exact List.Sublist.append_left (hsub2.trans (List.sublist_append_right sep _)) _
        · rw [hdec, List.append_assoc, List.filter_append, List.filter_append,
            List.filter_append, hfil2, hsepnil]
          simp

theorem telegram_chunks_eq (text : List Char) :
    chunksGo (TELEGRAM_MAX_MESSAGE_LENGTH - 100) text.length text =
      some (telegram_chunks text) := by
  have hs := chunksGo_isSome (TELEGRAM_MAX_MESSAGE_LENGTH - 100) (by decide)
    text.length text le_rfl
  unfold telegram_chunks
  cases heq : chunksGo (TELEGRAM_MAX_MESSAGE_LENGTH - 100) text.length text with
  | none => rw [heq] at hs; simp at hs
  | some l => simp

theorem rfind_append_singleton (c : Char) : ∀ l : List Char, rfind c (l ++ [c]) = l.length
  | [] => by simp [rfind]
  | x :: xs => by
    have ih := rfind_append_singleton c xs
    have hstep : rfind c ((x :: xs) ++ [c]) =
        (if 0 ≤ rfind c (xs ++ [c]) then rfind c (xs ++ [c]) + 1
         else if x = c then 0 else -1) := rfl
    rw [hstep, ih, if_pos (by positivity), List.length_cons]
    omega

theorem chunksGo_cons_eq (maxLen fuel : Nat) (text : List Char) (h : text ≠ []) :
    chunksGo maxLen (fuel + 1) text =
      match chunksGo maxLen fuel (chunkStep maxLen text).2 with
      | none => none
      | some chunks => some (emitChunk (chunkStep maxLen text).1 :: chunks) := by
  obtain ⟨b, L, rfl⟩ := List.exists_cons_of_ne_nil h
  rfl

theorem c4input_length : c4input.length = 3998 := by
  rw [c4input, List.length_append, List.length_replicate]
  rfl

theorem c4input_take : c4input.take 3996 = List.replicate 3995 'a' ++ ['\n'] := by
  have hle : (List.replicate 3995 'a' : List Char).length ≤ 3996 := by
    rw [List.length_replicate]
    omega
  rw [c4input, List.take_append_eq_append_take, List.take_of_length_le hle,
    List.length_replicate]
  rfl

theorem c4input_drop : c4input.drop 3996 = ['\n', 'b'] := by
  rw [c4input, List.drop_append_eq_append_drop,
    List.drop_eq_nil_of_le (by rw [List.length_replicate]; omega), List.length_replicate]
  rfl

theorem c4input_step :
    chunkStep 3996 c4input = (List.replicate 3995 'a' ++ ['\n'], ['b']) := by
  have hlen : c4input.length = 3998 := c4input_length
  have hrf : rfind '\n' (c4input.take 3996) = 3995 := by
    rw [c4input_take, rfind_append_singleton, List.length_replicate]
    rfl
  unfold chunkStep
  rw [if_neg (by omega)]
  dsimp only
  rw [hrf, if_pos (by norm_num)]
  rw [show Int.toNat 3995 + 1 = 3996 from rfl]
  rw [c4input_take, c4input_drop]
  rw [List.take_of_length_le
    (by rw [List.length_append, List.length_replicate, List.length_cons, List.length_nil])]
  rfl

theorem c4input_chunks :
    telegram_chunks c4input = [List.replicate 3995 'a' ++ ['\n'], ['b']] := by
  have e1 : TELEGRAM_MAX_MESSAGE_LENGTH - 100 = 3996 := by decide
  have hlen : c4input.length = 3998 := c4input_length
  have hne : c4input ≠ [] := by
    intro hcontra
    rw [hcontra] at hlen
    exact absurd hlen (by decide)
  have hemit : emitChunk (List.replicate 3995 'a' ++ ['\n']) =
      List.replicate 3995 'a' ++ ['\n'] := by
    unfold emitChunk
    rw [if_neg
      (by rw [List.length_append, List.length_replicate, List.length_cons, List.length_nil]
          unfold TELEGRAM_MAX_MESSAGE_LENGTH
          omega)]
  have h2 : chunksGo 3996 3997 ['b'] = some [['b']] := by
    rw [show (3997 : Nat) = 3996 + 1 from rfl,
      chunksGo_cons_eq 3996 3996 ['b'] (by decide)]
    rfl
  unfold telegram_chunks
  rw [e1, hlen, show (3998 : Nat) = 3997 + 1 from rfl,
    chunksGo_cons_eq 3996 3997 c4input hne, c4input_step]
  dsimp only
  rw [h2]
  show (some (emitChunk (List.replicate 3995 'a' ++ ['\n']) :: [['b']])).getD [] = _
  rw [Option.getD_some, hemit]

/-- C4 counterexample: concatenating the chunks does not reconstruct the
input.  For 3995 `a`s followed by two newlines and a `b`, the newline-cut
branch ends the first chunk after the first newline and `lstrip("\n")`
silently drops the second newline, so one character is lost.  This
refutes "concatenating in order all chunks reconstructs the original
text exactly". -/
theorem chunks_flatten_counterexample :
    (telegram_chunks c4input).flatten ≠ c4input := by
  rw [c4input_chunks]
  intro h
  have hlen := congrArg List.length h
  rw [c4input_length] at hlen
  rw [show ([List.replicate 3995 'a' ++ ['\n'], ['b']] : List (List Char)).flatten =
    (List.replicate 3995 'a' ++ ['\n']) ++ ['b'] from rfl] at hlen
  rw [List.length_append, List.length_append, List.length_replicate,
    List.length_cons, List.length_cons, List.length_nil] at hlen
  omega

/-- C4 amended: concatenating the chunks in order reproduces the original
text up to newline characters dropped at newline-cut chunk boundaries
(the `lstrip("\n")` applied to the remainder): the concatenation is a
subsequence of the original — no character is duplicated or reordered —
and it agrees with the original on every non-newline character. -/
theorem chunks_flatten_reconstruct (text : List Char) :
    (telegram_chunks text).flatten.Sublist text ∧
    (telegram_chunks text).flatten.filter (fun ch => !(ch == '\n')) =
      text.filter (fun ch => !(ch == '\n')) :=
  chunksGo_flatten (TELEGRAM_MAX_MESSAGE_LENGTH - 100) (by decide) text.length text
    (telegram_chunks text) (telegram_chunks_eq text)

/-- C5: every chunk produced by the splitting loop of
`send_telegram_message` has length at most the loop's target
`max_len = 4096 - 100 = 3996`, and hence never exceeds Telegram's hard
maximum message length of 4096, under every branch of the splitting
logic. -/
theorem chunk_length_le (text c : List Char) (hc : c ∈ telegram_chunks text) :
    c.length ≤ TELEGRAM_MAX_MESSAGE_LENGTH - 100 ∧
      c.length ≤ TELEGRAM_MAX_MESSAGE_LENGTH :=
  have h1 := chunksGo_chunk_le (TELEGRAM_MAX_MESSAGE_LENGTH - 100) (by decide)
    text.length text (telegram_chunks text) (telegram_chunks_eq text) c hc
  ⟨h1, le_trans h1 (by decide)⟩

/-- Witness: `chunk_length_le` on the two-character text `hi`, which is
its own single chunk. -/
theorem chunk_length_le_witness :
    (['h', 'i'] : List Char) ∈ telegram_chunks ['h', 'i'] ∧
      (['h', 'i'] : List Char).length ≤ TELEGRAM_MAX_MESSAGE_LENGTH - 100 ∧
      (['h', 'i'] : List Char).length ≤ TELEGRAM_MAX_MESSAGE_LENGTH :=
  ⟨by decide, chunk_length_le ['h', 'i'] ['h', 'i'] (by decide)⟩

/-- C10: the splitting loop of `send_telegram_message` terminates on every
finite input: fuel `text.length` always suffices (the loop never runs
out), and on any non-empty text one iteration emits a non-empty chunk and
leaves a strictly shorter remainder, in every branch of the splitting
logic. -/
theorem chunk_loop_terminates (text : List Char) :
    chunksGo (TELEGRAM_MAX_MESSAGE_LENGTH - 100) text.length text ≠ none ∧
    (text ≠ [] →
      emitChunk (chunkStep (TELEGRAM_MAX_MESSAGE_LENGTH - 100) text).1 ≠ [] ∧
      (chunkStep (TELEGRAM_MAX_MESSAGE_LENGTH - 100) text).2.length < text.length) := by
  refine ⟨?_, fun h => ⟨?_, chunkStep_snd_length_lt _ (by decide) text h⟩⟩
  · rw [telegram_chunks_eq text]
    simp
  · have h1 := chunkStep_fst_ne_nil (TELEGRAM_MAX_MESSAGE_LENGTH - 100) (by decide) text h
    have h2 := List.length_pos.mpr h1
    unfold emitChunk
    split
    · rw [← List.length_pos, List.length_take]
      have hT : 0 < TELEGRAM_MAX_MESSAGE_LENGTH := by decide
      omega
    · exact h1

/-- Witness: `chunk_loop_terminates` on the one-character text `a`. -/
theorem chunk_loop_terminates_witness :
    (['a'] : List Char) ≠ [] ∧
    emitChunk (chunkStep (TELEGRAM_MAX_MESSAGE_LENGTH - 100) ['a']).1 ≠ [] ∧
    (chunkStep (TELEGRAM_MAX_MESSAGE_LENGTH - 100) ['a']).2.length <
      (['a'] : List Char).length :=
  ⟨by decide, (chunk_loop_terminates ['a']).2 (by decide)⟩

/-! ### Helper lemmas: formatter ordering -/

theorem charListLE_total : ∀ l1 l2 : List Char, charListLE l1 l2 = true ∨ charListLE l2 l1 = true
  | [], l2 => by
    left
    rfl
  | a :: as, [] => by
    right
    rfl
  | a :: as, b :: bs => by
    rcases lt_trichotomy a b with h | h | h
    · left
      show (if a < b then true else if b < a then false else charListLE as bs) = true
      rw [if_pos h]
    · subst h
      rcases charListLE_total as bs with ih | ih
      · left
        show (if a < a then true else if a < a then false else charListLE as bs) = true
        rw [if_neg (lt_irrefl a), if_neg (lt_irrefl a)]
        exact ih
      · right
        show (if a < a then true else if a < a then false else charListLE bs as) = true
        rw [if_neg (lt_irrefl a), if_neg (lt_irrefl a)]
        exact ih
    · right
      show (if b < a then true else if a < b then false else charListLE bs as) = true
      rw [if_pos h]

theorem charListLE_trans : ∀ l1 l2 l3 : List Char,
    charListLE l1 l2 = true → charListLE l2 l3 = true → charListLE l1 l3 = true
  | [], _, _, _, _ => rfl
  | a :: as, [], _, h12, _ => by exact absurd h12 (by simp [charListLE])
  | a :: as, b :: bs, [], _, h23 => by exact absurd h23 (by simp [charListLE])
  | a :: as, b :: bs, c :: cs, h12, h23 => by
    simp only [charListLE] at h12 h23 ⊢
    by_cases hab : a < b
    · by_cases hbc : b < c
      · rw [if_pos (lt_trans hab hbc)]
      · by_cases hcb : c < b
        · rw [if_neg hbc, if_pos hcb] at h23
          exact absurd h23 (by simp)
        · have hbc' : b = c := le_antisymm (not_lt.mp hcb) (not_lt.mp hbc)
          subst hbc'
          rw [if_pos hab]
    · by_cases hba : b < a
      · rw [if_neg hab, if_pos hba] at h12
        exact absurd h12 (by simp)
      · have hab' : a = b := le_antisymm (not_lt.mp hba) (not_lt.mp hab)
        subst hab'
        rw [if_neg (lt_irrefl a), if_neg (lt_irrefl a)] at h12
        by_cases hac : a < c
        · rw [if_pos hac]
        · rw [if_neg hac] at h23 ⊢
          by_cases hca : c < a
          · rw [if_pos hca] at h23
            exact absurd h23 (by simp)
          · rw [if_neg hca] at h23 ⊢
            exact charListLE_trans as bs cs h12 h23

theorem sectorKeyLE_total (a b : String) : sectorKeyLE a b = true ∨ sectorKeyLE b a = true := by
  unfold sectorKeyLE
  cases ha : (a == "Other") <;> cases hb : (b == "Other") <;> simp <;>
    exact charListLE_total _ _

theorem sectorKeyLE_trans (a b c : String) (hab : sectorKeyLE a b = true)
    (hbc : sectorKeyLE b c = true) : sectorKeyLE a c = true := by
  unfold sectorKeyLE at hab hbc ⊢
  cases ha : (a == "Other") <;> cases hb : (b == "Other") <;> cases hc : (c == "Other") <;>
    simp_all
  exact charListLE_trans _ _ _ hab hbc

/-- C8: `format_stock_message` orders stock sectors by the key
`(s == "Other", s.upper())`: the concrete sectors Zeta/Other/Alpha render
as Alpha, Zeta, Other; any non-`"Other"` sector sorts strictly before
`"Other"` while `"Other"` never sorts before another sector (so `"Other"`
is always last); the produced sector list is sorted under that key and is
a permutation of the grouped non-stock-free sector keys; and within a
sector instruments are sorted case-insensitively by display name, falling
back to the symbol when there is no display name (the `displayKey`
ordering), again as a permutation of the sector's instruments. -/
theorem format_sector_ordering :
    stock_sectors [sectorStock "Zeta", sectorStock "Other", sectorStock "Alpha"] =
      ["Alpha", "Zeta", "Other"] ∧
    (∀ s : String, s ≠ "Other" → sectorKeyLE s "Other" = true ∧ sectorKeyLE "Other" s = false) ∧
    (∀ results : List StockResult,
      (stock_sectors results).Sorted (fun s1 s2 => sectorKeyLE s1 s2 = true) ∧
      (stock_sectors results).Perm
        (((groupBySector results).map Prod.fst).filter (fun s => !(NON_STOCK.contains s)))) ∧
    (∀ stocks : List StockResult,
      (sortStocksByName stocks).Sorted
        (fun a b => charListLE (displayKey a) (displayKey b) = true) ∧
      (sortStocksByName stocks).Perm stocks) := by
  refine ⟨by decide, ?_, ?_, ?_⟩
  · intro s hs
    have hbeq : (s == "Other") = false := beq_eq_false_iff_ne.mpr hs
    unfold sectorKeyLE
    rw [hbeq]
    simp
  · intro results
    haveI : IsTotal String (fun s1 s2 => sectorKeyLE s1 s2 = true) := ⟨sectorKeyLE_total⟩
    haveI : IsTrans String (fun s1 s2 => sectorKeyLE s1 s2 = true) :=
      ⟨fun a b c => sectorKeyLE_trans a b c⟩
    exact ⟨List.sorted_insertionSort _ _, List.perm_insertionSort _ _⟩
  · intro stocks
    haveI : IsTotal StockResult
        (fun a b => charListLE (displayKey a) (displayKey b) = true) :=
      ⟨fun a b => charListLE_total _ _⟩
    haveI : IsTrans StockResult
        (fun a b => charListLE (displayKey a) (displayKey b) = true) :=
      ⟨fun a b c => charListLE_trans _ _ _⟩
    exact ⟨List.sorted_insertionSort _ _, List.perm_insertionSort _ _⟩

/-- Witness: the Other-last part of `format_sector_ordering` at the
concrete sector `"Zeta"`. -/
theorem format_sector_ordering_witness :
    ("Zeta" : String) ≠ "Other" ∧
      sectorKeyLE "Zeta" "Other" = true ∧ sectorKeyLE "Other" "Zeta" = false :=
  ⟨by decide, format_sector_ordering.2.1 "Zeta" (by decide)⟩

/-! ### Helper lemmas: entry point -/

theorem mainWorkActions_no_send (stocksOnly : Bool) :
    MainAction.sendMessage ∉ mainWorkActions stocksOnly ∧
      MainAction.sendCharts ∉ mainWorkActions stocksOnly ∧
      MainAction.formatMessage ∈ mainWorkActions stocksOnly ∧
      MainAction.runStockScreener ∈ mainWorkActions stocksOnly := by
  cases stocksOnly <;> exact ⟨by decide, by decide, by decide, by decide⟩

/-- C9 counterexample: on a non-dry run with `TELEGRAM_BOT_TOKEN` unset,
`main` does fail with the fatal configuration error and attempts no send —
but only after the work has run: the action trace already contains the
stock screening and the formatting when the error is raised, because the
credential check sits after `run_screener`/`format_stock_message` in the
source.  This refutes "the run fails immediately, before any work
(fetching, screening, formatting) begins". -/
theorem main_work_before_credentials_counterexample :
    (main_run false false none (some "123") false false).2 =
      Except.error "Missing TELEGRAM_BOT_TOKEN or TELEGRAM_CHAT_ID in environment/.env" ∧
    MainAction.runStockScreener ∈ (main_run false false none (some "123") false false).1 ∧
    MainAction.formatMessage ∈ (main_run false false none (some "123") false false).1 := by
  refine ⟨rfl, by decide, by decide⟩

/-- C9 amended: on a non-dry run with `TELEGRAM_BOT_TOKEN` or
`TELEGRAM_CHAT_ID` missing (empty after trimming), the run fails with the
fatal configuration error and no send of any kind is attempted — but only
after the work (fetching, screening, formatting) has already run, since
the credential check sits between formatting and sending in `main`. -/
theorem main_missing_credentials_fatal (stocksOnly : Bool) (token chatId : Option String)
    (hasMessage2 hasCharts : Bool)
    (h : pyStrip (token.getD "") = "" ∨ pyStrip (chatId.getD "") = "") :
    (main_run false stocksOnly token chatId hasMessage2 hasCharts).2 =
      Except.error "Missing TELEGRAM_BOT_TOKEN or TELEGRAM_CHAT_ID in environment/.env" ∧
    MainAction.sendMessage ∉ (main_run false stocksOnly token chatId hasMessage2 hasCharts).1 ∧
    MainAction.sendCharts ∉ (main_run false stocksOnly token chatId hasMessage2 hasCharts).1 ∧
    MainAction.formatMessage ∈ (main_run false stocksOnly token chatId hasMessage2 hasCharts).1 := by
  unfold main_run
  rw [if_neg (by simp)]
  rw [if_pos (by rcases h with h | h <;> simp [h])]
  exact ⟨rfl, (mainWorkActions_no_send stocksOnly).1,
    (mainWorkActions_no_send stocksOnly).2.1, (mainWorkActions_no_send stocksOnly).2.2.1⟩

/-- Witness: `main_missing_credentials_fatal` with both credentials
missing on a full (non-stocks-only) run. -/
theorem main_missing_credentials_fatal_witness :
    pyStrip ((none : Option String).getD "") = "" ∧
    (main_run false false none none true true).2 =
      Except.error "Missing TELEGRAM_BOT_TOKEN or TELEGRAM_CHAT_ID in environment/.env" ∧
    MainAction.sendMessage ∉ (main_run false false none none true true).1 ∧
    MainAction.sendCharts ∉ (main_run false false none none true true).1 ∧
    MainAction.formatMessage ∈ (main_run false false none none true true).1 :=
  ⟨by decide, main_missing_credentials_fatal false none none true true (Or.inl (by decide))⟩

end MarketScout
